import Mathlib

/-!
Shallow embedding of the QuantDinger regime/allocation core:
`app/services/circuit_breaker.py`, `app/services/portfolio_allocator.py`
and `app/tasks/regime_switch.py`.

Python floats are modelled by `ℚ`, strategy ids by `ℤ`, dictionaries by
association lists, `time.time()` by an explicit `now : ℚ` argument, and
the external strategy runtime / persistence layer by explicit function
or list parameters.
-/

namespace QuantDinger

/-! ### Circuit breaker (`circuit_breaker.py`) -/

/-- The `multi_strategy.circuit_breaker` section of the config dict.
Absent keys are `none`; `check` applies the code's `.get` defaults. -/
structure BreakerCfg where
  enabled : Option Bool
  maxDrawdownPct : Option ℚ
  recoveryThresholdPct : Option ℚ
  cooldownMinutes : Option ℚ
deriving DecidableEq, Repr

/-- Mutable fields of the `CircuitBreaker` singleton. -/
structure BreakerState where
  peakEquity : ℚ
  lastEquity : ℚ
  isTriggered : Bool
  triggerTime : Option ℚ
deriving DecidableEq, Repr

/-- `CircuitBreaker.__init__`. -/
def initBreaker : BreakerState :=
  { peakEquity := 0, lastEquity := 0, isTriggered := false, triggerTime := none }

/-- `CircuitBreaker._compute_drawdown_pct`. -/
def computeDrawdownPct (s : BreakerState) : ℚ :=
  if s.peakEquity ≤ 0 then 0
  else (s.peakEquity - s.lastEquity) / s.peakEquity * 100

/-- The first two statements of the locked block of `CircuitBreaker.check`:
`self._last_equity = current_equity` and the conditional peak update. -/
def updateEquity (s : BreakerState) (currentEquity : ℚ) : BreakerState :=
  { s with
    lastEquity := currentEquity
    peakEquity := if currentEquity > s.peakEquity then currentEquity else s.peakEquity }

/-- `CircuitBreaker.check(current_equity, config)`, with `time.time()`
passed explicitly as `now` (in seconds).  Returns the boolean result
together with the state after the call. -/
def check (s : BreakerState) (currentEquity : ℚ) (cfg : BreakerCfg) (now : ℚ) :
    Bool × BreakerState :=
  if !(cfg.enabled.getD false) then (false, s)
  else
    let maxDd := cfg.maxDrawdownPct.getD 15
    let recovery := cfg.recoveryThresholdPct.getD 10
    let cooldownMin := cfg.cooldownMinutes.getD 60
    let s1 := updateEquity s currentEquity
    let ddPct := computeDrawdownPct s1
    if !s1.isTriggered then
      if ddPct ≥ maxDd then
        (true, { s1 with isTriggered := true, triggerTime := some now })
      else (s1.isTriggered, s1)
    else
      let elapsedMin := (now - s1.triggerTime.getD 0) / 60
      if ddPct < recovery ∧ elapsedMin ≥ cooldownMin then
        (false, { s1 with isTriggered := false, triggerTime := none })
      else (s1.isTriggered, s1)

/-- A sequence of `check` calls: each list element is
`(currentEquity, config, now)`. -/
def checkSeq (s : BreakerState) : List (ℚ × BreakerCfg × ℚ) → BreakerState
  | [] => s
  | (e, cfg, now) :: rest => checkSeq (check s e cfg now).2 rest

/-- The state change of the `Triggered → Normal` transition in
`CircuitBreaker.check`. -/
def clearTrigger (s : BreakerState) : BreakerState :=
  { s with isTriggered := false, triggerTime := none }

/-! ### Circuit breaker lemmas -/

theorem updateEquity_peak_le (s : BreakerState) (e : ℚ) :
    s.peakEquity ≤ (updateEquity s e).peakEquity := by
  unfold updateEquity
  dsimp only
  split
  · exact le_of_lt (by assumption)
  · exact le_refl _

theorem check_snd_peakEquity (s : BreakerState) (e : ℚ) (cfg : BreakerCfg) (now : ℚ) :
    (check s e cfg now).2.peakEquity =
      if cfg.enabled.getD false then (updateEquity s e).peakEquity else s.peakEquity := by
  cases hb : cfg.enabled.getD false
  · simp [check, hb]
  · simp only [check, hb, Bool.not_true, if_true, if_false, Bool.false_eq_true]
    split_ifs <;> rfl

theorem check_peak_le (s : BreakerState) (e : ℚ) (cfg : BreakerCfg) (now : ℚ) :
    s.peakEquity ≤ (check s e cfg now).2.peakEquity := by
  rw [check_snd_peakEquity]
  split
  · exact updateEquity_peak_le s e
  · exact le_refl _

/-- C7: Peak-equity monotonicity: across any sequence of `check` calls with no
intervening reset, `peakEquity` never decreases; moreover every enabled `check`
sets `peakEquity` to `max peakEquity currentEquity` and `lastEquity` to
`currentEquity`. -/
theorem peak_equity_monotone :
    (∀ (s : BreakerState) (calls : List (ℚ × BreakerCfg × ℚ)),
      s.peakEquity ≤ (checkSeq s calls).peakEquity) ∧
    (∀ (s : BreakerState) (e : ℚ) (cfg : BreakerCfg) (now : ℚ),
      cfg.enabled.getD false = true →
        (check s e cfg now).2.peakEquity = max s.peakEquity e ∧
        (check s e cfg now).2.lastEquity = e) := by
  constructor
  · intro s calls
    induction calls generalizing s with
    | nil => exact le_refl _
    | cons c rest ih =>
      obtain ⟨e, cfg, now⟩ := c
      exact le_trans (check_peak_le s e cfg now) (ih (check s e cfg now).2)
  · intro s e cfg now hen
    constructor
    · rw [check_snd_peakEquity, hen, if_pos rfl]
      unfold updateEquity
      dsimp only
      split_ifs with h
      · exact (max_eq_right (le_of_lt h)).symm
      · exact (max_eq_left (not_lt.mp h)).symm
    · simp only [check, hen, Bool.not_true, Bool.false_eq_true, if_false]
      split_ifs <;> rfl

/-- C7 witness: concrete instantiation of the enabled-call clause. -/
theorem peak_equity_monotone_witness :
    (check initBreaker 100000
      { enabled := some true, maxDrawdownPct := some 15,
        recoveryThresholdPct := some 10, cooldownMinutes := some 0 } 0).2.peakEquity =
      max initBreaker.peakEquity 100000 :=
  (peak_equity_monotone.2 initBreaker 100000
    { enabled := some true, maxDrawdownPct := some 15,
      recoveryThresholdPct := some 10, cooldownMinutes := some 0 } 0 rfl).1

/-- C1: Breaker hysteresis, single-call characterization from a `Triggered`
state: an enabled `check` from a triggered state returns `false` exactly when
the call observes both `drawdownPct < recovery_threshold_pct` and
elapsed minutes `≥ cooldown_minutes`; in that case the state returns to
Normal, and otherwise the call returns `true` and leaves the triggered
flag and trigger time untouched (so every subsequent enabled call keeps
returning `true` until the first call where both conditions hold). -/
theorem breaker_hysteresis (s : BreakerState) (e : ℚ) (cfg : BreakerCfg) (now : ℚ)
    (henabled : cfg.enabled.getD false = true) (htrig : s.isTriggered = true) :
    ((check s e cfg now).1 = false ↔
      (computeDrawdownPct (updateEquity s e) < cfg.recoveryThresholdPct.getD 10 ∧
        (now - (updateEquity s e).triggerTime.getD 0) / 60 ≥ cfg.cooldownMinutes.getD 60)) ∧
    ((computeDrawdownPct (updateEquity s e) < cfg.recoveryThresholdPct.getD 10 ∧
        (now - (updateEquity s e).triggerTime.getD 0) / 60 ≥ cfg.cooldownMinutes.getD 60) →
      (check s e cfg now).2 = clearTrigger (updateEquity s e)) ∧
    (¬(computeDrawdownPct (updateEquity s e) < cfg.recoveryThresholdPct.getD 10 ∧
        (now - (updateEquity s e).triggerTime.getD 0) / 60 ≥ cfg.cooldownMinutes.getD 60) →
      (check s e cfg now).1 = true ∧ (check s e cfg now).2 = updateEquity s e) := by
  have htrig1 : (updateEquity s e).isTriggered = true := by
    unfold updateEquity; dsimp only; exact htrig
  simp only [check, henabled, Bool.not_true, Bool.false_eq_true, if_false, htrig1]
  split_ifs with h
  · exact ⟨by simp [h], fun _ => rfl, fun hc => absurd h hc⟩
  · exact ⟨by simp [htrig1, h], fun hc => absurd hc h, fun _ => ⟨rfl, rfl⟩⟩

/-- The spec's scenario config: `max_drawdown_pct=15`,
`recovery_threshold_pct=10`, `cooldown_minutes=0`, breaker enabled. -/
def cbCfgScenario : BreakerCfg :=
  { enabled := some true, maxDrawdownPct := some 15,
    recoveryThresholdPct := some 10, cooldownMinutes := some 0 }

/-- A triggered breaker state: peak 100000, equity 84000 (16% drawdown). -/
def cbTriggeredScenario : BreakerState :=
  { peakEquity := 100000, lastEquity := 84000, isTriggered := true, triggerTime := some 0 }

/-- C1 witness: the spec's concrete scenario.  After a trigger at
peak 100000, equity 84000 (16% ≥ 15%), a call with equity 95000
(5% < 10%, cooldown 0) returns `false`. -/
theorem breaker_hysteresis_witness :
    (check cbTriggeredScenario 95000 cbCfgScenario 60).1 = false :=
  (breaker_hysteresis cbTriggeredScenario 95000 cbCfgScenario 60 rfl rfl).1.mpr
    (by constructor <;>
      norm_num [computeDrawdownPct, updateEquity, cbTriggeredScenario, cbCfgScenario])

/-! ### Weight maps (`portfolio_allocator.py` module helpers)

A python `Dict[str, float]` of style weights is modelled as an
association list. -/

abbrev WMap := List (String × ℚ)

/-- `weights.get(k, 0.0)`: first entry with the given key (python dict
keys are unique), defaulting to 0. -/
def wget : WMap → String → ℚ
  | [], _ => 0
  | p :: rest, k => if p.1 = k then p.2 else wget rest k

/-- `sum(v for v in weights.values() if v > 0)`. -/
def posSum (m : WMap) : ℚ :=
  ((m.filter (fun p => 0 < p.2)).map Prod.snd).sum

/-- `_apply_threshold`: weights below the threshold are zeroed. -/
def applyThreshold (weights : WMap) (threshold : ℚ) : WMap :=
  weights.map (fun p => (p.1, if p.2 ≥ threshold then p.2 else 0))

/-- `_normalize_weights`: scale strictly-positive weights so they sum
to 1; if the positive total is ≤ 0 the input is returned unchanged. -/
def normalizeWeights (weights : WMap) : WMap :=
  let total := posSum weights
  if total ≤ 0 then weights
  else weights.map (fun p => (p.1, if 0 < p.2 then p.2 / total else 0))

/-- The `transition` section of the `multi_strategy` config dict. -/
structure TransitionCfg where
  mode : Option String
  maxStepPerTick : Option ℚ
deriving DecidableEq, Repr

/-- Python's `abs` on a float-as-rational, written so that it is
kernel-computable (`|·|` on `ℚ` goes through the lattice instances and
does not reduce); `ratAbs_eq_abs` identifies it with `|·|`. -/
def ratAbs (q : ℚ) : ℚ := if q < 0 then -q else q

theorem ratAbs_eq_abs (q : ℚ) : ratAbs q = |q| := by
  unfold ratAbs
  split_ifs with h
  · exact (abs_of_neg h).symm
  · exact (abs_of_nonneg (not_lt.mp h)).symm

/-- The key set `set(current) | set(target)` of two python dicts, as the
ordered list of first occurrences. -/
def keyUnion (keys : List String) : List String :=
  keys.foldl (fun acc k => if k ∈ acc then acc else acc ++ [k]) []

/-- `_apply_gradual_transition`: returns `dict(target)` unless
`mode == "gradual"` and `current` is non-empty, in which case each
style moves toward its target by at most `max_step_per_tick` and the
result is renormalized. -/
def applyGradualTransition (current target : WMap) (tcfg : TransitionCfg) : WMap :=
  let mode := tcfg.mode.getD "immediate"
  if mode ≠ "gradual" ∨ current = [] then target
  else
    let maxStep := tcfg.maxStepPerTick.getD (1/5)
    let allKeys := keyUnion (current.map Prod.fst ++ target.map Prod.fst)
    let stepped := allKeys.map (fun k =>
      let curVal := wget current k
      let tgtVal := wget target k
      let diff := tgtVal - curVal
      (k, if ratAbs diff ≤ maxStep then tgtVal
          else if 0 < diff then curVal + maxStep else curVal - maxStep))
    normalizeWeights stepped

/-! ### Normalization invariant (C6) -/

theorem sum_map_div (l : List ℚ) (t : ℚ) :
    (l.map (fun x => x / t)).sum = l.sum / t := by
  induction l with
  | nil => simp
  | cons x xs ih => simp [ih, add_div]

theorem posSum_map_normalize (m : WMap) (t : ℚ) (ht : 0 < t) :
    posSum (m.map (fun p => (p.1, if 0 < p.2 then p.2 / t else 0))) = posSum m / t := by
  unfold posSum
  rw [← sum_map_div]
  congr 1
  induction m with
  | nil => rfl
  | cons p rest ih =>
    by_cases hp : 0 < p.2
    · have hdiv : 0 < p.2 / t := div_pos hp ht
      simp [List.filter_cons, hp, hdiv, ih]
    · simp [List.filter_cons, hp, ih]

theorem posSum_normalize (m : WMap) (h : 0 < posSum m) :
    posSum (normalizeWeights m) = 1 := by
  have hne : ¬ posSum m ≤ 0 := not_le.mpr h
  simp only [normalizeWeights, hne, if_false]
  rw [posSum_map_normalize m (posSum m) h]
  exact div_self (ne_of_gt h)

theorem pos_entry_le_posSum (m : WMap) (p : String × ℚ) (hp : p ∈ m) (hpos : 0 < p.2) :
    p.2 ≤ posSum m := by
  apply List.single_le_sum
  · intro x hx
    obtain ⟨q, hq, rfl⟩ := List.mem_map.mp hx
    exact le_of_lt (by simpa using (List.mem_filter.mp hq).2)
  · exact List.mem_map.mpr ⟨p, List.mem_filter.mpr ⟨hp, by simpa using hpos⟩, rfl⟩

/-- C6: Normalization invariant: for every input weight vector
(nonnegative entries, as in the spec's `WeightVector` data model), the
output of `_normalize_weights` either has its strictly-positive entries
summing to within 1e-6 of 1, or is entirely zero. -/
theorem normalize_weights_invariant (m : WMap) (hnn : ∀ p ∈ m, 0 ≤ p.2) :
    |posSum (normalizeWeights m) - 1| ≤ 1 / 1000000 ∨
      ∀ p ∈ normalizeWeights m, p.2 = 0 := by
  rcases le_or_lt (posSum m) 0 with h | h
  · right
    intro p hp
    have hm : normalizeWeights m = m := by unfold normalizeWeights; simp [h]
    rw [hm] at hp
    rcases (hnn p hp).eq_or_lt with heq | hlt
    · exact heq.symm
    · exact absurd (lt_of_lt_of_le hlt (pos_entry_le_posSum m p hp hlt)) (not_lt.mpr h)
  · left
    rw [posSum_normalize m h]
    norm_num

/-- C6 witness: a concrete nonnegative weight vector. -/
theorem normalize_weights_invariant_witness :
    |posSum (normalizeWeights [("conservative", 3), ("balanced", 1), ("aggressive", 0)]) - 1|
        ≤ 1 / 1000000 ∨
      ∀ p ∈ normalizeWeights [("conservative", 3), ("balanced", 1), ("aggressive", 0)],
        p.2 = 0 :=
  normalize_weights_invariant _ (by decide)

/-! ### Gradual transition step rule (C4) -/

/-- The per-style step rule as the spec states it: the new raw value is
the target if `|target - current| <= max_step_per_tick`, and otherwise
current plus `max_step_per_tick` in the direction of the target. -/
def specGradualStep (curVal tgtVal maxStep : ℚ) : ℚ :=
  if ratAbs (tgtVal - curVal) ≤ maxStep then tgtVal
  else if tgtVal > curVal then curVal + maxStep else curVal - maxStep

/-- The pre-normalization ("raw") vector of the gradual branch. -/
def gradualStepped (current target : WMap) (maxStep : ℚ) : WMap :=
  (keyUnion (current.map Prod.fst ++ target.map Prod.fst)).map
    (fun k => (k, specGradualStep (wget current k) (wget target k) maxStep))

theorem wget_map_keys (keys : List String) (f : String → ℚ) (k : String) (hk : k ∈ keys) :
    wget (keys.map (fun x => (x, f x))) k = f k := by
  induction keys with
  | nil => cases hk
  | cons k0 rest ih =>
    rw [List.map_cons]
    rcases eq_or_ne k0 k with h | h
    · subst h; simp [wget]
    · have hk' : k ∈ rest := by
        rcases List.mem_cons.mp hk with h' | h'
        · exact absurd h'.symm h
        · exact h'
      rw [wget, if_neg h]
      exact ih hk'

/-- C4: Gradual transition step rule: with mode `"gradual"` and a prior
effective vector, `_apply_gradual_transition` renormalizes the vector whose
value at each style of the key union is the spec's step rule (target if
`|target - current| <= max_step_per_tick`, else a `max_step_per_tick` move
toward the target); concretely, from `{a:0.2,b:0.6,c:0.2}` toward
`{a:0.8,b:0.2,c:0.0}` with step `0.2` the pre-normalization vector is
`{a:0.4,b:0.4,c:0.0}` and the returned vector is `{a:0.5,b:0.5,c:0.0}`. -/
theorem gradual_transition_step :
    (∀ (current target : WMap) (tcfg : TransitionCfg),
      tcfg.mode.getD "immediate" = "gradual" → current ≠ [] →
      (applyGradualTransition current target tcfg =
        normalizeWeights (gradualStepped current target (tcfg.maxStepPerTick.getD (1/5))) ∧
      ∀ k ∈ keyUnion (current.map Prod.fst ++ target.map Prod.fst),
        wget (gradualStepped current target (tcfg.maxStepPerTick.getD (1/5))) k =
          specGradualStep (wget current k) (wget target k)
            (tcfg.maxStepPerTick.getD (1/5)))) ∧
    (gradualStepped [("a", 1/5), ("b", 3/5), ("c", 1/5)]
        [("a", 4/5), ("b", 1/5), ("c", 0)] (1/5) =
        [("a", 2/5), ("b", 2/5), ("c", 0)] ∧
      applyGradualTransition [("a", 1/5), ("b", 3/5), ("c", 1/5)]
          [("a", 4/5), ("b", 1/5), ("c", 0)]
          { mode := some "gradual", maxStepPerTick := some (1/5) } =
        [("a", 1/2), ("b", 1/2), ("c", 0)]) := by
  constructor
  · intro current target tcfg hmode hcur
    constructor
    · have hfun : (fun k =>
          let curVal := wget current k
          let tgtVal := wget target k
          let diff := tgtVal - curVal
          (k, if ratAbs diff ≤ tcfg.maxStepPerTick.getD (1/5) then tgtVal
              else if 0 < diff then curVal + tcfg.maxStepPerTick.getD (1/5)
              else curVal - tcfg.maxStepPerTick.getD (1/5))) =
        (fun k => (k, specGradualStep (wget current k) (wget target k)
              (tcfg.maxStepPerTick.getD (1/5)))) := by
        funext k
        simp only [specGradualStep, sub_pos]
      simp only [applyGradualTransition, gradualStepped, hmode]
      rw [if_neg (by simp [hcur]), hfun]
    · intro k hk
      exact wget_map_keys _ _ k hk
  · constructor
    · simp +decide [gradualStepped, keyUnion, wget]
      norm_num [specGradualStep, ratAbs]
    · simp +decide [applyGradualTransition, gradualStepped, keyUnion, wget]
      norm_num [specGradualStep, ratAbs, normalizeWeights, posSum, List.filter_cons]

/-- C4 witness: the general clause applied at the spec's scenario. -/
theorem gradual_transition_step_witness :
    applyGradualTransition [("a", 1/5), ("b", 3/5), ("c", 1/5)]
        [("a", 4/5), ("b", 1/5), ("c", 0)]
        { mode := some "gradual", maxStepPerTick := some (1/5) } =
      normalizeWeights (gradualStepped [("a", 1/5), ("b", 3/5), ("c", 1/5)]
        [("a", 4/5), ("b", 1/5), ("c", 0)]
        ((({ mode := some "gradual", maxStepPerTick := some (1/5) } :
            TransitionCfg).maxStepPerTick).getD (1/5))) :=
  ((gradual_transition_step.1 [("a", 1/5), ("b", 3/5), ("c", 1/5)]
      [("a", 4/5), ("b", 1/5), ("c", 0)]
      { mode := some "gradual", maxStepPerTick := some (1/5) } rfl (by decide)).1)

/-! ### Allocation tables and the symbol→style→ids map

`Dict[int, float]` maps (allocations, initial capitals) are association
lists over `ℤ`; `symbol_strategies` is `symbol → style → [strategy_id]`. -/

abbrev AMap := List (ℤ × ℚ)

abbrev SymMap := List (String × List (String × List ℤ))

/-- `d.get(sid, 0.0)` on an integer-keyed dict. -/
def aget : AMap → ℤ → ℚ
  | [], _ => 0
  | p :: rest, sid => if p.1 = sid then p.2 else aget rest sid

/-- Generic `d.get(k)` on a dict as association list. -/
def alookup {κ α : Type} [DecidableEq κ] : List (κ × α) → κ → Option α
  | [], _ => none
  | p :: rest, k => if p.1 = k then some p.2 else alookup rest k

/-- `sorted` on a list of ints (insertion sort). -/
def sortInsert (x : ℤ) : List ℤ → List ℤ
  | [] => [x]
  | y :: ys => if x ≤ y then x :: y :: ys else y :: sortInsert x ys

def sortInts (l : List ℤ) : List ℤ := l.foldr sortInsert []

/-- A python `set` of ints, modelled as the dedup'd list of first
occurrences. -/
def dedupInts (l : List ℤ) : List ℤ :=
  l.foldl (fun acc i => if i ∈ acc then acc else acc ++ [i]) []

/-- `PortfolioAllocator._get_all_managed_ids`: every strategy id
appearing anywhere in `symbol_strategies`. -/
def getAllManagedIds (symbolStrategies : SymMap) : List ℤ :=
  dedupInts (symbolStrategies.flatMap (fun sp => sp.2.flatMap (fun st => st.2)))

/-- `PortfolioAllocator._compute_start_stop_diff`: over the managed ids,
allocation ≤ 0 and running → stop; allocation > 0 and not running →
start; both lists sorted. -/
def computeStartStopDiff (allocation : AMap) (runningIds : List ℤ)
    (allManaged : List ℤ) : List ℤ × List ℤ :=
  let idsToStop := allManaged.filter (fun sid => aget allocation sid ≤ 0 ∧ sid ∈ runningIds)
  let idsToStart := allManaged.filter (fun sid => 0 < aget allocation sid ∧ sid ∉ runningIds)
  (sortInts idsToStop, sortInts idsToStart)

/-- `self._frozen_strategies[sid] = True` (python dict insertion keeps an
existing key's position). -/
def insertFrozen (fr : List ℤ) (sid : ℤ) : List ℤ :=
  if sid ∈ fr then fr else fr ++ [sid]

/-- The body of the first loop of
`PortfolioAllocator._handle_over_allocation`: freeze a shrunk-but-
positive allocation, unfreeze (delete) a grown positive one, otherwise
leave the frozen dict alone. -/
def freezeStep (oldAlloc : AMap) (fr : List ℤ) (p : ℤ × ℚ) : List ℤ :=
  let oldCap := aget oldAlloc p.1
  if p.2 < oldCap ∧ 0 < p.2 then insertFrozen fr p.1
  else if oldCap ≤ p.2 ∧ 0 < p.2 then fr.filter (fun x => x ≠ p.1)
  else fr

/-- `PortfolioAllocator._handle_over_allocation`: run `freezeStep` over
the new allocation table, then drop every frozen id whose allocation is
≤ 0. -/
def handleOverAllocation (newAlloc oldAlloc : AMap) (frozen : List ℤ) : List ℤ :=
  (newAlloc.foldl (freezeStep oldAlloc) frozen).filter
    (fun sid => 0 < aget newAlloc sid)

/-! ### Membership lemmas for the diff (C2) -/

theorem mem_sortInsert (x a : ℤ) (l : List ℤ) :
    a ∈ sortInsert x l ↔ a = x ∨ a ∈ l := by
  induction l with
  | nil => simp [sortInsert]
  | cons y ys ih =>
    unfold sortInsert
    split_ifs
    · simp
    · simp [ih]
      tauto

theorem mem_sortInts (a : ℤ) (l : List ℤ) : a ∈ sortInts l ↔ a ∈ l := by
  unfold sortInts
  induction l with
  | nil => simp
  | cons x xs ih => simp [mem_sortInsert, ih]

theorem mem_dedup_aux (l acc : List ℤ) (a : ℤ) :
    a ∈ l.foldl (fun acc i => if i ∈ acc then acc else acc ++ [i]) acc ↔
      a ∈ acc ∨ a ∈ l := by
  induction l generalizing acc with
  | nil => simp
  | cons x xs ih =>
    simp only [List.foldl_cons]
    split_ifs with hx
    · rw [ih]
      constructor
      · rintro (h | h)
        · exact Or.inl h
        · exact Or.inr (List.mem_cons_of_mem _ h)
      · rintro (h | h)
        · exact Or.inl h
        · rcases List.mem_cons.mp h with rfl | h'
          · exact Or.inl hx
          · exact Or.inr h'
    · rw [ih]
      simp only [List.mem_append, List.mem_singleton, List.mem_cons]
      tauto

theorem mem_dedupInts (a : ℤ) (l : List ℤ) : a ∈ dedupInts l ↔ a ∈ l := by
  unfold dedupInts
  rw [mem_dedup_aux]
  simp

/-- C2: Managed boundary of the start/stop diff: the stopped list is
exactly the managed ids with allocation ≤ 0 that are running, the started
list exactly the managed ids with allocation > 0 that are not running;
ids outside the managed set never appear, and the two lists are
disjoint. -/
theorem start_stop_diff (allocation : AMap) (runningIds : List ℤ) (sym : SymMap) :
    (∀ sid, sid ∈ (computeStartStopDiff allocation runningIds (getAllManagedIds sym)).1 ↔
      sid ∈ getAllManagedIds sym ∧ aget allocation sid ≤ 0 ∧ sid ∈ runningIds) ∧
    (∀ sid, sid ∈ (computeStartStopDiff allocation runningIds (getAllManagedIds sym)).2 ↔
      sid ∈ getAllManagedIds sym ∧ 0 < aget allocation sid ∧ sid ∉ runningIds) ∧
    (∀ sid, sid ∈ getAllManagedIds sym ↔ ∃ sp ∈ sym, ∃ st ∈ sp.2, sid ∈ st.2) ∧
    (∀ sid, sid ∉ getAllManagedIds sym →
      sid ∉ (computeStartStopDiff allocation runningIds (getAllManagedIds sym)).1 ∧
      sid ∉ (computeStartStopDiff allocation runningIds (getAllManagedIds sym)).2) ∧
    (∀ sid, sid ∈ (computeStartStopDiff allocation runningIds (getAllManagedIds sym)).1 →
      sid ∉ (computeStartStopDiff allocation runningIds (getAllManagedIds sym)).2) := by
  have hstop : ∀ sid, sid ∈ (computeStartStopDiff allocation runningIds
      (getAllManagedIds sym)).1 ↔
      sid ∈ getAllManagedIds sym ∧ aget allocation sid ≤ 0 ∧ sid ∈ runningIds := by
    intro sid
    unfold computeStartStopDiff
    rw [mem_sortInts, List.mem_filter]
    simp
  have hstart : ∀ sid, sid ∈ (computeStartStopDiff allocation runningIds
      (getAllManagedIds sym)).2 ↔
      sid ∈ getAllManagedIds sym ∧ 0 < aget allocation sid ∧ sid ∉ runningIds := by
    intro sid
    unfold computeStartStopDiff
    rw [mem_sortInts, List.mem_filter]
    simp
  refine ⟨hstop, hstart, ?_, ?_, ?_⟩
  · intro sid
    unfold getAllManagedIds
    rw [mem_dedupInts]
    simp [List.mem_flatMap]
  · intro sid hm
    exact ⟨fun h => hm ((hstop sid).mp h).1, fun h => hm ((hstart sid).mp h).1⟩
  · intro sid h1 h2
    have ha := ((hstop sid).mp h1).2.1
    have hb := ((hstart sid).mp h2).2.1
    exact absurd hb (not_lt.mpr ha)

/-- C2 witness: the spec's scenario 5 — symbol X, conservative=[1],
balanced=[2], allocation {1: 10000, 2: 0}, running={2} gives
stopped=[2], started=[1]; the foreign id 5 appears in neither list. -/
theorem start_stop_diff_witness :
    2 ∈ (computeStartStopDiff [(1, 10000), (2, 0)] [2]
          (getAllManagedIds [("X", [("conservative", [1]), ("balanced", [2])])])).1 ∧
    1 ∈ (computeStartStopDiff [(1, 10000), (2, 0)] [2]
          (getAllManagedIds [("X", [("conservative", [1]), ("balanced", [2])])])).2 ∧
    5 ∉ (computeStartStopDiff [(1, 10000), (2, 0)] [2]
          (getAllManagedIds [("X", [("conservative", [1]), ("balanced", [2])])])).1 := by
  refine ⟨?_, ?_, ?_⟩
  · exact ((start_stop_diff [(1, 10000), (2, 0)] [2]
      [("X", [("conservative", [1]), ("balanced", [2])])]).1 2).mpr
      (by refine ⟨by decide, by norm_num [aget], by decide⟩)
  · exact ((start_stop_diff [(1, 10000), (2, 0)] [2]
      [("X", [("conservative", [1]), ("balanced", [2])])]).2.1 1).mpr
      (by refine ⟨by decide, by norm_num [aget], by decide⟩)
  · exact ((start_stop_diff [(1, 10000), (2, 0)] [2]
      [("X", [("conservative", [1]), ("balanced", [2])])]).2.2.2.1 5 (by decide)).1

/-! ### Freeze update lemmas (C5) -/

theorem aget_of_mem_nodup (m : AMap) (p : ℤ × ℚ) (hp : p ∈ m)
    (h : (m.map Prod.fst).Nodup) : aget m p.1 = p.2 := by
  induction m with
  | nil => cases hp
  | cons q rest ih =>
    rw [List.map_cons] at h
    obtain ⟨hq, hrest⟩ := List.nodup_cons.mp h
    rcases List.mem_cons.mp hp with rfl | hp'
    · simp [aget]
    · have hne : q.1 ≠ p.1 := by
        intro hcontra
        exact hq (hcontra ▸ List.mem_map.mpr ⟨p, hp', rfl⟩)
      rw [aget, if_neg hne]
      exact ih hp' hrest

theorem freezeStep_mem_of_ne (oldAlloc : AMap) (fr : List ℤ) (p : ℤ × ℚ) (sid : ℤ)
    (hne : sid ≠ p.1) : sid ∈ freezeStep oldAlloc fr p ↔ sid ∈ fr := by
  simp only [freezeStep, insertFrozen]
  split_ifs <;> simp [List.mem_filter, hne]

theorem freezeFold_mem_of_not_key (oldAlloc : AMap) (l : AMap) (fr : List ℤ)
    (sid : ℤ) (h : sid ∉ l.map Prod.fst) :
    sid ∈ l.foldl (freezeStep oldAlloc) fr ↔ sid ∈ fr := by
  induction l generalizing fr with
  | nil => rfl
  | cons q rest ih =>
    rw [List.foldl_cons]
    have hq : sid ≠ q.1 := fun hc => h (by simp [hc])
    rw [ih _ (fun hc => h (by simp [hc]))]
    exact freezeStep_mem_of_ne oldAlloc fr q sid hq

theorem freezeFold_mem_of_freeze (oldAlloc : AMap) (l : AMap) (fr : List ℤ)
    (p : ℤ × ℚ) (hp : p ∈ l) (hnodup : (l.map Prod.fst).Nodup)
    (hc : p.2 < aget oldAlloc p.1 ∧ 0 < p.2) :
    p.1 ∈ l.foldl (freezeStep oldAlloc) fr := by
  induction l generalizing fr with
  | nil => cases hp
  | cons q rest ih =>
    rw [List.map_cons] at hnodup
    obtain ⟨hq, hrest⟩ := List.nodup_cons.mp hnodup
    rw [List.foldl_cons]
    rcases List.mem_cons.mp hp with rfl | hp'
    · have h1 : p.1 ∈ freezeStep oldAlloc fr p := by
        simp only [freezeStep, insertFrozen]
        rw [if_pos hc]
        split_ifs with h
        · exact h
        · simp
      exact (freezeFold_mem_of_not_key oldAlloc rest _ p.1 hq).mpr h1
    · exact ih _ hp' hrest

theorem freezeFold_not_mem_of_unfreeze (oldAlloc : AMap) (l : AMap) (fr : List ℤ)
    (p : ℤ × ℚ) (hp : p ∈ l) (hnodup : (l.map Prod.fst).Nodup)
    (hc : aget oldAlloc p.1 ≤ p.2 ∧ 0 < p.2) :
    p.1 ∉ l.foldl (freezeStep oldAlloc) fr := by
  induction l generalizing fr with
  | nil => cases hp
  | cons q rest ih =>
    rw [List.map_cons] at hnodup
    obtain ⟨hq, hrest⟩ := List.nodup_cons.mp hnodup
    rw [List.foldl_cons]
    rcases List.mem_cons.mp hp with rfl | hp'
    · have h1 : p.1 ∉ freezeStep oldAlloc fr p := by
        simp only [freezeStep]
        rw [if_neg (fun hcontra => absurd hcontra.1 (not_lt.mpr hc.1)), if_pos hc]
        simp [List.mem_filter]
      rw [freezeFold_mem_of_not_key oldAlloc rest _ p.1 hq]
      exact h1
    · exact ih _ hp' hrest

/-- C5: Freeze update rule: a strategy whose new allocation shrinks but
stays positive is frozen; one whose allocation is ≥ its old value and
positive is unfrozen; any id with allocation ≤ 0 is absent from the
frozen set; and afterwards every frozen id has strictly positive
allocation. -/
theorem freeze_update (newAlloc oldAlloc : AMap) (frozen : List ℤ)
    (hkeys : (newAlloc.map Prod.fst).Nodup) :
    (∀ p ∈ newAlloc, p.2 < aget oldAlloc p.1 ∧ 0 < p.2 →
      p.1 ∈ handleOverAllocation newAlloc oldAlloc frozen) ∧
    (∀ p ∈ newAlloc, aget oldAlloc p.1 ≤ p.2 ∧ 0 < p.2 →
      p.1 ∉ handleOverAllocation newAlloc oldAlloc frozen) ∧
    (∀ sid, aget newAlloc sid ≤ 0 →
      sid ∉ handleOverAllocation newAlloc oldAlloc frozen) ∧
    (∀ sid ∈ handleOverAllocation newAlloc oldAlloc frozen,
      0 < aget newAlloc sid) := by
  refine ⟨?_, ?_, ?_, ?_⟩
  · intro p hp hc
    unfold handleOverAllocation
    rw [List.mem_filter]
    refine ⟨freezeFold_mem_of_freeze oldAlloc newAlloc frozen p hp hkeys hc, ?_⟩
    rw [aget_of_mem_nodup newAlloc p hp hkeys]
    simpa using hc.2
  · intro p hp hc hmem
    unfold handleOverAllocation at hmem
    exact freezeFold_not_mem_of_unfreeze oldAlloc newAlloc frozen p hp hkeys hc
      (List.mem_filter.mp hmem).1
  · intro sid hle hmem
    unfold handleOverAllocation at hmem
    have := (List.mem_filter.mp hmem).2
    simp only [decide_eq_true_eq] at this
    exact absurd this (not_lt.mpr hle)
  · intro sid hmem
    unfold handleOverAllocation at hmem
    have := (List.mem_filter.mp hmem).2
    simpa using this

/-- C5 witness: allocations {1: 5, 2: 10, 3: 0} against previous
{1: 10, 2: 5, 3: 4} with frozen {2, 3}: 1 becomes frozen, 2 is
unfrozen, 3 is removed. -/
theorem freeze_update_witness :
    1 ∈ handleOverAllocation [(1, 5), (2, 10), (3, 0)] [(1, 10), (2, 5), (3, 4)] [2, 3] ∧
    2 ∉ handleOverAllocation [(1, 5), (2, 10), (3, 0)] [(1, 10), (2, 5), (3, 4)] [2, 3] ∧
    3 ∉ handleOverAllocation [(1, 5), (2, 10), (3, 0)] [(1, 10), (2, 5), (3, 4)] [2, 3] := by
  obtain ⟨h1, h2, h3, _⟩ := freeze_update [(1, 5), (2, 10), (3, 0)]
    [(1, 10), (2, 5), (3, 4)] [2, 3] (by decide)
  refine ⟨?_, ?_, ?_⟩
  · exact h1 (1, 5) (by decide) (by norm_num [aget])
  · exact h2 (2, 10) (by decide) (by norm_num [aget])
  · exact h3 3 (by norm_num [aget])

/-! ### Capital allocation (`_compute_allocations`, C3) -/

/-- python `min` on floats, kernel-computable (cf. `ratAbs`). -/
def ratMin (a b : ℚ) : ℚ := if a ≤ b then a else b

/-- python `max` on floats, kernel-computable (cf. `ratAbs`). -/
def ratMax (a b : ℚ) : ℚ := if a < b then b else a

theorem ratMin_le_right (a b : ℚ) : ratMin a b ≤ b := by
  unfold ratMin
  split_ifs with h
  · exact h
  · exact le_refl b

theorem ratMin_eq_min (a b : ℚ) : ratMin a b = min a b := by
  unfold ratMin
  split_ifs with h
  · exact (min_eq_left h).symm
  · exact (min_eq_right (le_of_not_le h)).symm

theorem ratMax_eq_max (a b : ℚ) : ratMax a b = max a b := by
  unfold ratMax
  split_ifs with h
  · exact (max_eq_right (le_of_lt h)).symm
  · exact (max_eq_left (not_lt.mp h)).symm

/-- The `multi_strategy` section of the config dict (only the fields
this core reads).  The source's `max_allocation_ratio` key is the field
`maxAllocRatioOpt`. -/
structure MsCfg where
  minWeightThreshold : Option ℚ
  transition : TransitionCfg
  regimeToWeights : List (String × WMap)
  maxAllocRatioOpt : Option ℚ
  symbolCapitalPool : List (String × ℚ)
deriving Repr

/-- `PortfolioAllocator._get_target_weights`: the configured
`regime_to_weights[regime]`, or the hard-coded fallback when absent or
empty. -/
def getTargetWeights (regime : String) (cfg : MsCfg) : WMap :=
  let weights := (alookup cfg.regimeToWeights regime).getD []
  if weights = [] then [("conservative", 1/5), ("balanced", 3/5), ("aggressive", 1/5)]
  else weights

/-- `PortfolioAllocator._calculate_symbol_pool`: max initial capital over
the symbol's strategies × number of non-empty styles; 0 when no positive
initial-capital data exists. -/
def calculateSymbolPool (initialCapital : AMap)
    (styleMap : List (String × List ℤ)) : ℚ :=
  let acc := styleMap.foldl (fun (acc : ℚ × ℕ) st =>
    if st.2 = [] then acc
    else (st.2.foldl (fun m sid => ratMax m (aget initialCapital sid)) acc.1, acc.2 + 1))
    (0, 0)
  if 0 < acc.1 then acc.1 * acc.2 else 0

/-- The capital pool for one symbol inside `_compute_allocations`:
the configured `symbol_capital_pool` override when present, else
`_calculate_symbol_pool`. -/
def symbolPool (cfg : MsCfg) (initialCapital : AMap)
    (sp : String × List (String × List ℤ)) : ℚ :=
  match alookup cfg.symbolCapitalPool sp.1 with
  | some p => p
  | none => calculateSymbolPool initialCapital sp.2

/-- The inner loop of `_compute_allocations` for one style: weight ≤ 0
allocates 0 to every member; otherwise `pool × weight / len(ids)`,
capped at `initial_capital × max_allocation_ratio` when the strategy's
initial capital is known (> 0). -/
def allocForStyle (pool : ℚ) (weights : WMap) (initialCapital : AMap) (maxRa : ℚ)
    (st : String × List ℤ) : AMap :=
  if st.2 = [] then []
  else
    let w := wget weights st.1
    if w ≤ 0 then st.2.map (fun sid => (sid, (0 : ℚ)))
    else
      let perStrategy := pool * w / st.2.length
      st.2.map (fun sid =>
        let orig := aget initialCapital sid
        (sid, if 0 < orig then ratMin perStrategy (orig * maxRa) else perStrategy))

/-- `PortfolioAllocator._compute_allocations` with the single global
weight vector (`use_per_symbol=False`): the new allocation table and the
new per-symbol capital pools. -/
def computeAllocations (cfg : MsCfg) (symbolStrategies : SymMap) (weights : WMap)
    (initialCapital : AMap) : AMap × List (String × ℚ) :=
  (symbolStrategies.flatMap (fun sp =>
      sp.2.flatMap (allocForStyle (symbolPool cfg initialCapital sp) weights
        initialCapital (cfg.maxAllocRatioOpt.getD 2))),
   symbolStrategies.map (fun sp => (sp.1, symbolPool cfg initialCapital sp)))

theorem allocForStyle_cap (pool : ℚ) (weights : WMap) (caps : AMap) (maxRa : ℚ)
    (hra : 0 ≤ maxRa) (st : String × List ℤ) :
    ∀ e ∈ allocForStyle pool weights caps maxRa st,
      0 < aget caps e.1 → e.2 ≤ aget caps e.1 * maxRa := by
  intro e he hpos
  simp only [allocForStyle] at he
  split_ifs at he with h1 h2
  · cases he
  · obtain ⟨sid, hsid, rfl⟩ := List.mem_map.mp he
    dsimp only at hpos ⊢
    exact mul_nonneg (le_of_lt hpos) hra
  · obtain ⟨sid, hsid, rfl⟩ := List.mem_map.mp he
    dsimp only at hpos ⊢
    rw [if_pos hpos]
    exact ratMin_le_right _ _

/-- The spec's scenario 1 config: `max_allocation_ratio = 2.0`, no
configured pool override. -/
def msCfgC3 : MsCfg :=
  { minWeightThreshold := none, transition := { mode := none, maxStepPerTick := none },
    regimeToWeights := [], maxAllocRatioOpt := some 2, symbolCapitalPool := [] }

/-- Scenario 1 symbol map: one symbol, three styles with one strategy
each. -/
def symC3 : SymMap :=
  [("X", [("conservative", [1]), ("balanced", [2]), ("aggressive", [3])])]

/-- Scenario 1 effective weights {conservative:0.8, balanced:0.2,
aggressive:0.0}. -/
def weightsC3 : WMap :=
  [("conservative", 4/5), ("balanced", 1/5), ("aggressive", 0)]

/-- Scenario 1 initial capitals: 10000 each. -/
def capsC3 : AMap := [(1, 10000), (2, 10000), (3, 10000)]

/-- C3: Capital cap: every allocation entry of a strategy with known
(positive) initial capital `c` is at most `c × max_allocation_ratio`;
and in the spec's scenario (pool 30000 = 3 styles × 10000, weights
{0.8, 0.2, 0.0}, ratio 2.0) the allocations are 20000 / 6000 / 0. -/
theorem capital_cap :
    (∀ (cfg : MsCfg) (sym : SymMap) (weights : WMap) (caps : AMap),
      0 ≤ cfg.maxAllocRatioOpt.getD 2 →
      ∀ e ∈ (computeAllocations cfg sym weights caps).1,
        0 < aget caps e.1 → e.2 ≤ aget caps e.1 * cfg.maxAllocRatioOpt.getD 2) ∧
    computeAllocations msCfgC3 symC3 weightsC3 capsC3 =
      ([(1, 20000), (2, 6000), (3, 0)], [("X", 30000)]) := by
  constructor
  · intro cfg sym weights caps hra e he hpos
    simp only [computeAllocations] at he
    obtain ⟨sp, _, he1⟩ := List.mem_flatMap.mp he
    obtain ⟨st, _, he2⟩ := List.mem_flatMap.mp he1
    exact allocForStyle_cap _ weights caps _ hra st e he2 hpos
  · simp +decide [computeAllocations, symbolPool, alookup, calculateSymbolPool,
      allocForStyle, msCfgC3, symC3, weightsC3, capsC3, wget, aget]
    norm_num [ratMax, ratMin]

/-- C3 witness: the cap clause applied to the conservative strategy of
the scenario (allocation 20000 ≤ 10000 × 2). -/
theorem capital_cap_witness :
    ((1 : ℤ), (20000 : ℚ)).2 ≤
      aget capsC3 ((1 : ℤ), (20000 : ℚ)).1 * msCfgC3.maxAllocRatioOpt.getD 2 :=
  capital_cap.1 msCfgC3 symC3 weightsC3 capsC3 (by norm_num [msCfgC3])
    (1, 20000) (by rw [capital_cap.2]; simp) (by norm_num [capsC3, aget])

/-! ### Regime computation (`regime_switch.py` `compute_regime`, C8) -/

/-- The four regime constants of `regime_switch.py`. -/
def REGIME_PANIC : String := "panic"

def REGIME_HIGH_VOL : String := "high_vol"

def REGIME_LOW_VOL : String := "low_vol"

def REGIME_NORMAL : String := "normal"

/-- The `regime_rules` config section (threshold-relevant fields).
Absent keys are `none`; reads apply the code's nested `.get`
defaults. -/
structure RegimeRules where
  primaryIndicator : Option String
  vixPanic : Option ℚ
  vixHighVol : Option ℚ
  vixLowVol : Option ℚ
  vhsiPanic : Option ℚ
  vhsiHighVol : Option ℚ
  vhsiLowVol : Option ℚ
  civixPanic : Option ℚ
  civixHighVol : Option ℚ
  civixLowVol : Option ℚ
  fgExtremeFear : Option ℚ
  fgHighFear : Option ℚ
  fgLowGreed : Option ℚ
deriving Repr

/-- python's `a or b` where `a` is an optional string and `""` is
falsy. -/
def orStr (a : Option String) (b : String) : String :=
  match a with
  | some s => if s = "" then b else s
  | none => b

/-- `(macro or {}).get(key, dflt)`. -/
def macroGet (macroSnap : Option (List (String × ℚ))) (k : String) (dflt : ℚ) : ℚ :=
  (alookup (macroSnap.getD []) k).getD dflt

/-- `compute_regime(vix, fear_greed, config, vhsi, macro,
primary_override)`.  The `.strip().lower()` normalization of the primary
indicator is modelled as the identity (the embedding takes the
already-normalized string); the `custom` branch runs external
user-supplied code (`_compute_regime_custom`) and is modelled by the
explicit `customResult` parameter. -/
def computeRegime (vix : ℚ) (fearGreed : Option ℚ) (cfg : RegimeRules)
    (vhsi : Option ℚ) (macroSnap : Option (List (String × ℚ)))
    (primaryOverride : Option String) (customResult : String) : String :=
  let primary := orStr primaryOverride (orStr cfg.primaryIndicator "vix")
  if primary = "custom" then customResult
  else if primary = "vhsi" then
    let volVal := vhsi.getD (macroGet macroSnap "vhsi" vix)
    let vhsiPanicCut := cfg.vhsiPanic.getD (cfg.vixPanic.getD 30)
    let vhsiHighCut := cfg.vhsiHighVol.getD (cfg.vixHighVol.getD 25)
    let vhsiLowCut := cfg.vhsiLowVol.getD (cfg.vixLowVol.getD 15)
    if volVal > vhsiPanicCut then REGIME_PANIC
    else if volVal > vhsiHighCut then REGIME_HIGH_VOL
    else if volVal < vhsiLowCut then REGIME_LOW_VOL
    else REGIME_NORMAL
  else if primary = "civix" then
    let volVal := macroGet macroSnap "civix" vix
    let civixPanicCut := cfg.civixPanic.getD (cfg.vixPanic.getD 30)
    let civixHighCut := cfg.civixHighVol.getD (cfg.vixHighVol.getD 25)
    let civixLowCut := cfg.civixLowVol.getD (cfg.vixLowVol.getD 15)
    if volVal > civixPanicCut then REGIME_PANIC
    else if volVal > civixHighCut then REGIME_HIGH_VOL
    else if volVal < civixLowCut then REGIME_LOW_VOL
    else REGIME_NORMAL
  else if primary = "fear_greed" then
    let fg := fearGreed.getD 50
    let fgExtremeFearCut := cfg.fgExtremeFear.getD 20
    let fgHighFearCut := cfg.fgHighFear.getD 35
    let fgLowGreedCut := cfg.fgLowGreed.getD 65
    if fg < fgExtremeFearCut then REGIME_PANIC
    else if fg < fgHighFearCut then REGIME_HIGH_VOL
    else if fg > fgLowGreedCut then REGIME_LOW_VOL
    else REGIME_NORMAL
  else
    let vixPanicCut := cfg.vixPanic.getD 30
    let vixHighCut := cfg.vixHighVol.getD 25
    let vixLowCut := cfg.vixLowVol.getD 15
    if vix > vixPanicCut then REGIME_PANIC
    else if vix > vixHighCut then REGIME_HIGH_VOL
    else if vix < vixLowCut then REGIME_LOW_VOL
    else REGIME_NORMAL

/-- Modelled from the spec: the three ordered threshold comparisons for
a volatility indicator — above panic cutoff → panic, above high_vol
cutoff → high_vol, below low_vol cutoff → low_vol, else normal. -/
def specVolThresholdScheme (value panicCut highVolCut lowVolCut : ℚ) : String :=
  if value > panicCut then REGIME_PANIC
  else if value > highVolCut then REGIME_HIGH_VOL
  else if value < lowVolCut then REGIME_LOW_VOL
  else REGIME_NORMAL

/-- Modelled from the spec: the inverted scheme for `fear_greed` — below
the extreme-fear cutoff → panic, below the high-fear cutoff → high_vol,
above the low-greed cutoff → low_vol, else normal. -/
def specFearGreedScheme (value extremeFearCut highFearCut lowGreedCut : ℚ) : String :=
  if value < extremeFearCut then REGIME_PANIC
  else if value < highFearCut then REGIME_HIGH_VOL
  else if value > lowGreedCut then REGIME_LOW_VOL
  else REGIME_NORMAL

/-- C8: Regime threshold scheme: for each volatility primary (vix,
vhsi, civix) `compute_regime` is exactly the spec's ordered threshold
scheme on the resolved indicator value and configured cutoffs, and for
`fear_greed` it is exactly the spec's inverted scheme. -/
theorem regime_threshold_scheme (vix fgv vh : ℚ) (cfg : RegimeRules)
    (macroSnap : Option (List (String × ℚ))) (customResult : String) :
    computeRegime vix (some fgv) cfg (some vh) macroSnap (some "vix") customResult =
      specVolThresholdScheme vix (cfg.vixPanic.getD 30) (cfg.vixHighVol.getD 25)
        (cfg.vixLowVol.getD 15) ∧
    computeRegime vix (some fgv) cfg (some vh) macroSnap (some "vhsi") customResult =
      specVolThresholdScheme vh (cfg.vhsiPanic.getD (cfg.vixPanic.getD 30))
        (cfg.vhsiHighVol.getD (cfg.vixHighVol.getD 25))
        (cfg.vhsiLowVol.getD (cfg.vixLowVol.getD 15)) ∧
    computeRegime vix (some fgv) cfg (some vh) macroSnap (some "civix") customResult =
      specVolThresholdScheme (macroGet macroSnap "civix" vix)
        (cfg.civixPanic.getD (cfg.vixPanic.getD 30))
        (cfg.civixHighVol.getD (cfg.vixHighVol.getD 25))
        (cfg.civixLowVol.getD (cfg.vixLowVol.getD 15)) ∧
    computeRegime vix (some fgv) cfg (some vh) macroSnap (some "fear_greed") customResult =
      specFearGreedScheme fgv (cfg.fgExtremeFear.getD 20) (cfg.fgHighFear.getD 35)
        (cfg.fgLowGreed.getD 65) := by
  refine ⟨?_, ?_, ?_, ?_⟩ <;>
    simp +decide [computeRegime, orStr, specVolThresholdScheme, specFearGreedScheme]

/-! ### Reconciliation tick start/stop application
(`regime_switch.py` `_stop_strategies` / `_start_strategies` /
`_run_multi_strategy`, C9)

The persisted strategy status (`StrategyService.batch_*`) is modelled as
`db : ℤ → Bool` (`true` = persisted "running"); the external runtime's
`executor.start_strategy` success is the predicate `accepts`. -/

/-- `StrategyService.batch_start_strategies` / `batch_stop_strategies`:
idempotent bulk status update. -/
def batchSetStatus (ids : List ℤ) (running : Bool) (db : ℤ → Bool) : ℤ → Bool :=
  fun sid => if sid ∈ ids then running else db sid

/-- `_stop_strategies`: command the runtime to stop each id, then
persist the stopped status.  Returns the new persisted state and the ids
commanded to the runtime. -/
def stopStrategies (ids : List ℤ) (db : ℤ → Bool) : (ℤ → Bool) × List ℤ :=
  if ids = [] then (db, [])
  else (batchSetStatus ids false db, ids)

/-- `_start_strategies`: persist "running" for all ids first, then
command the runtime for each; ids the runtime refuses are collected and
their persisted status rolled back.  Returns the new persisted state,
the ids commanded to the runtime, and the failed ids. -/
def startStrategies (ids : List ℤ) (accepts : ℤ → Bool) (db : ℤ → Bool) :
    (ℤ → Bool) × List ℤ × List ℤ :=
  if ids = [] then (db, [], [])
  else
    let db1 := batchSetStatus ids true db
    let failed := ids.filter (fun sid => !(accepts sid))
    let db2 := if failed = [] then db1 else batchSetStatus failed false db1
    (db2, ids, failed)

/-- What one multi-strategy tick leaves behind. -/
structure TickOutcome where
  resultStarted : List ℤ
  resultStopped : List ℤ
  db : ℤ → Bool
  stopsCommanded : List ℤ
  startsCommanded : List ℤ

/-- `_run_multi_strategy`, downstream of `allocator.update_regime`: the
allocator-computed `stopped`/`started` lists are applied via the
external runtime (stops, then starts); the tick's reported result
(`result["started"]`, also logged as `start=...`) is the allocator's
list, which the start loop never modifies. -/
def runMultiStrategy (startedResult stoppedResult : List ℤ) (accepts : ℤ → Bool)
    (db : ℤ → Bool) : TickOutcome :=
  let afterStop := if stoppedResult = [] then (db, ([] : List ℤ))
    else stopStrategies stoppedResult db
  let afterStart := if startedResult = [] then (afterStop.1, ([] : List ℤ), ([] : List ℤ))
    else startStrategies startedResult accepts afterStop.1
  { resultStarted := startedResult
    resultStopped := stoppedResult
    db := afterStart.1
    stopsCommanded := afterStop.2
    startsCommanded := afterStart.2.1 }

/-- C9 counterexample: with started=[1,2], stopped=[3], a runtime that
refuses id 1 and accepts id 2, and id 3 persisted running: the tick
rolls id 1's persisted status back and completes the other operations,
but id 1 is NOT excluded from the tick's "started" result. -/
theorem runtime_start_rejection_counterexample :
    ((fun sid => sid == 2) : ℤ → Bool) 1 = false ∧
    1 ∈ (runMultiStrategy [1, 2] [3] (fun sid => sid == 2)
          (fun sid => sid == 3)).resultStarted ∧
    (runMultiStrategy [1, 2] [3] (fun sid => sid == 2) (fun sid => sid == 3)).db 1 = false ∧
    (runMultiStrategy [1, 2] [3] (fun sid => sid == 2) (fun sid => sid == 3)).db 2 = true ∧
    (runMultiStrategy [1, 2] [3] (fun sid => sid == 2) (fun sid => sid == 3)).db 3 = false := by
  refine ⟨rfl, by decide, ?_, ?_, ?_⟩ <;>
    simp +decide [runMultiStrategy, startStrategies, stopStrategies, batchSetStatus]

/-- C9 (amended): when the runtime refuses to start an id, its persisted
status is rolled back to not-running; accepted ids stay persisted
running; every started/stopped id is still commanded to the runtime
(the rejection does not abort the rest of the tick); and the tick's
"started" result is the allocator's list unchanged — the rejected id is
not excluded from it. -/
theorem runtime_start_rejection (startedResult stoppedResult : List ℤ)
    (accepts : ℤ → Bool) (db : ℤ → Bool) (sid : ℤ) :
    (sid ∈ startedResult → accepts sid = false →
      (runMultiStrategy startedResult stoppedResult accepts db).db sid = false) ∧
    (sid ∈ startedResult → accepts sid = true →
      (runMultiStrategy startedResult stoppedResult accepts db).db sid = true) ∧
    (sid ∈ startedResult →
      sid ∈ (runMultiStrategy startedResult stoppedResult accepts db).startsCommanded) ∧
    (sid ∈ stoppedResult →
      sid ∈ (runMultiStrategy startedResult stoppedResult accepts db).stopsCommanded) ∧
    (runMultiStrategy startedResult stoppedResult accepts db).resultStarted =
      startedResult := by
  have hne : ∀ h : sid ∈ startedResult, startedResult ≠ [] := by
    rintro h rfl; cases h
  refine ⟨?_, ?_, ?_, ?_, rfl⟩
  · intro hmem hacc
    simp only [runMultiStrategy, startStrategies, if_neg (hne hmem)]
    have hfail : sid ∈ startedResult.filter (fun s => !(accepts s)) :=
      List.mem_filter.mpr ⟨hmem, by simp [hacc]⟩
    have hfne : startedResult.filter (fun s => !(accepts s)) ≠ [] := by
      intro h; rw [h] at hfail; cases hfail
    simp only [if_neg hfne, batchSetStatus, if_pos hfail]
  · intro hmem hacc
    simp only [runMultiStrategy, startStrategies, if_neg (hne hmem)]
    have hnfail : sid ∉ startedResult.filter (fun s => !(accepts s)) := by
      intro h
      have := (List.mem_filter.mp h).2
      rw [hacc] at this
      cases this
    split_ifs <;> simp [batchSetStatus, hnfail, hmem]
  · intro hmem
    simp only [runMultiStrategy, startStrategies, if_neg (hne hmem)]
    exact hmem
  · intro hmem
    have hsne : stoppedResult ≠ [] := by rintro rfl; cases hmem
    simp only [runMultiStrategy, stopStrategies, if_neg hsne]
    exact hmem

/-- C9 witness: the amended clauses at the counterexample's inputs. -/
theorem runtime_start_rejection_witness :
    (runMultiStrategy [1, 2] [3] (fun sid => sid == 2) (fun sid => sid == 3)).db 1 = false ∧
    3 ∈ (runMultiStrategy [1, 2] [3] (fun sid => sid == 2)
          (fun sid => sid == 3)).stopsCommanded := by
  obtain ⟨h1, _, _, _, _⟩ := runtime_start_rejection [1, 2] [3]
    (fun sid => sid == 2) (fun sid => sid == 3) 1
  obtain ⟨_, _, _, h4, _⟩ := runtime_start_rejection [1, 2] [3]
    (fun sid => sid == 2) (fun sid => sid == 3) 3
  exact ⟨h1 (by decide) rfl, h4 (by decide)⟩

/-! ### `PortfolioAllocator.update_regime` — global single-regime path
(C10).

`regime_per_symbol` is `None` here, so `use_per_symbol` is false and the
code takes the single global branch; the external
`_get_running_ids()` set is the explicit `runningIds` input. -/

/-- The allocator singleton's mutable fields. -/
structure AllocState where
  currentRegime : String
  effectiveWeights : WMap
  targetWeights : WMap
  strategyAllocation : AMap
  strategyStyle : List (ℤ × String)
  strategyInitialCapital : AMap
  symbolStrategies : SymMap
  symbolCapitalPool : List (String × ℚ)
  frozenStrategies : List ℤ
  effectiveWeightsPerSymbol : List (String × WMap)
  regimePerSymbol : List (String × String)
  strategyToSymbol : List (ℤ × String)
deriving Repr

/-- `PortfolioAllocator.__init__`. -/
def initAllocState : AllocState :=
  { currentRegime := "normal", effectiveWeights := [], targetWeights := [],
    strategyAllocation := [], strategyStyle := [], strategyInitialCapital := [],
    symbolStrategies := [], symbolCapitalPool := [], frozenStrategies := [],
    effectiveWeightsPerSymbol := [], regimePerSymbol := [], strategyToSymbol := [] }

/-- `dict.update`: existing keys keep their place with the new value,
new keys are appended. -/
def dictUpdate (base upd : AMap) : AMap :=
  base.map (fun p => (p.1, (alookup upd p.1).getD p.2)) ++
    upd.filter (fun p => (alookup base p.1).isNone)

/-- `PortfolioAllocator._rebuild_strategy_style_map`: clears and refills
`strategy_id → style` and `strategy_id → symbol` from
`symbol_strategies`. -/
def rebuildStrategyStyleMap (symbolStrategies : SymMap) :
    List (ℤ × String) × List (ℤ × String) :=
  (symbolStrategies.flatMap (fun sp =>
      sp.2.flatMap (fun st => st.2.map (fun sid => (sid, st.1)))),
   symbolStrategies.flatMap (fun sp =>
      sp.2.flatMap (fun st => st.2.map (fun sid => (sid, sp.1)))))

/-- `PortfolioAllocator._find_weight_changed`: ids whose style's weight
moved by more than 1e-6. -/
def findWeightChanged (oldWeights newWeights : WMap)
    (strategyStyle : List (ℤ × String)) : List ℤ :=
  let allStyles := keyUnion (oldWeights.map Prod.fst ++ newWeights.map Prod.fst)
  let changedStyles := allStyles.filter
    (fun sty => ratAbs (wget oldWeights sty - wget newWeights sty) > 1/1000000)
  sortInts ((strategyStyle.filter (fun p => p.2 ∈ changedStyles)).map Prod.fst)

/-- The dict returned by `update_regime`. -/
structure UpdateResult where
  started : List ℤ
  stopped : List ℤ
  weightChanged : List ℤ
  runningCount : ℕ
  targetCount : ℕ
  symbolsWithPool : ℕ
  symbolsTotal : ℕ
deriving Repr

/-- `PortfolioAllocator.update_regime(regime, config,
symbol_strategies, strategy_initial_capitals, regime_per_symbol=None)`:
the global (non-per-symbol) path, returning the post-call state and the
result dict. -/
def updateRegime (s : AllocState) (regime : String) (cfg : MsCfg)
    (symbolStrategies : SymMap) (strategyInitialCapitals : Option AMap)
    (runningIds : List ℤ) : AllocState × UpdateResult :=
  let minThreshold := cfg.minWeightThreshold.getD (1/20)
  let initialCapital := match strategyInitialCapitals with
    | some caps => if caps = [] then s.strategyInitialCapital
                   else dictUpdate s.strategyInitialCapital caps
    | none => s.strategyInitialCapital
  let styleMaps := rebuildStrategyStyleMap symbolStrategies
  let rawTarget := getTargetWeights regime cfg
  let targetNormalized := normalizeWeights (applyThreshold rawTarget minThreshold)
  let oldWeights := s.effectiveWeights
  let effective := applyGradualTransition oldWeights targetNormalized cfg.transition
  let oldAlloc := s.strategyAllocation
  let allocPools := computeAllocations cfg symbolStrategies effective initialCapital
  let frozen := handleOverAllocation allocPools.1 oldAlloc s.frozenStrategies
  let allManaged := getAllManagedIds symbolStrategies
  let diff := computeStartStopDiff allocPools.1 runningIds allManaged
  ({ currentRegime := regime
     effectiveWeights := effective
     targetWeights := targetNormalized
     strategyAllocation := allocPools.1
     strategyStyle := styleMaps.1
     strategyInitialCapital := initialCapital
     symbolStrategies := symbolStrategies
     symbolCapitalPool := allocPools.2
     frozenStrategies := frozen
     effectiveWeightsPerSymbol := []
     regimePerSymbol := []
     strategyToSymbol := styleMaps.2 },
   { started := diff.2
     stopped := diff.1
     weightChanged := findWeightChanged oldWeights effective styleMaps.1
     runningCount := runningIds.length
     targetCount := (allManaged.filter (fun sid => 0 < aget allocPools.1 sid)).length
     symbolsWithPool := (allocPools.2.filter (fun p => 0 < p.2)).length
     symbolsTotal := allocPools.2.length })

/-- C10 scenario symbol map: one symbol, one style, one strategy. -/
def c10SymMap : SymMap := [("X", [("conservative", [1])])]

/-- The state after a first `update_regime` call that supplied
`strategy_initial_capitals = {1: 10000}`. -/
def c10State1 : AllocState :=
  (updateRegime initAllocState "normal" msCfgC3 c10SymMap (some [(1, 10000)]) []).1

/-- `c10State1` with only the initial-capital cache cleared: identical
to `c10State1` in every other field, in particular in the effective
weights and the frozen set. -/
def c10State1NoCache : AllocState :=
  { c10State1 with strategyInitialCapital := [] }

/-- C10 counterexample: two allocator states that agree on the effective
weights, the frozen set, the previous allocation table — on every field
except the initial-capital cache — produce different allocations from
the same `update_regime` call: the cache persisted from the first call
(an incremental `dict.update`) determines the capital pool.  So state
other than the effective weights and the FrozenSet carries over. -/
theorem allocator_lifecycle_counterexample :
    c10State1.strategyInitialCapital = [(1, 10000)] ∧
    c10State1NoCache.effectiveWeights = c10State1.effectiveWeights ∧
    c10State1NoCache.frozenStrategies = c10State1.frozenStrategies ∧
    c10State1NoCache.strategyAllocation = c10State1.strategyAllocation ∧
    aget (updateRegime c10State1 "normal" msCfgC3 c10SymMap none
        []).1.strategyAllocation 1 = 2000 ∧
    aget (updateRegime c10State1NoCache "normal" msCfgC3 c10SymMap none
        []).1.strategyAllocation 1 = 0 := by
  refine ⟨?_, rfl, rfl, rfl, ?_, ?_⟩
  · simp +decide [c10State1, updateRegime, dictUpdate, alookup, msCfgC3, c10SymMap]
  · simp +decide [c10State1, c10State1NoCache, updateRegime, dictUpdate, alookup,
      msCfgC3, c10SymMap, initAllocState, getTargetWeights, applyThreshold,
      normalizeWeights, posSum, applyGradualTransition, computeAllocations,
      symbolPool, calculateSymbolPool, allocForStyle, wget, aget,
      handleOverAllocation, freezeStep, insertFrozen]
    try norm_num [wget, aget, ratMax, ratMin]
  · simp +decide [c10State1, c10State1NoCache, updateRegime, dictUpdate, alookup,
      msCfgC3, c10SymMap, initAllocState, getTargetWeights, applyThreshold,
      normalizeWeights, posSum, applyGradualTransition, computeAllocations,
      symbolPool, calculateSymbolPool, allocForStyle, wget, aget,
      handleOverAllocation, freezeStep, insertFrozen]
    try norm_num [wget, aget, ratMax, ratMin]

/-- C10 (amended): every `update_regime` call rebuilds
`SymbolStrategyMap`, the target weight vector and `CapitalPool`
wholesale — the post-call state and result are fully determined by the
call's inputs together with the carried effective weights, frozen set,
initial-capital cache and previous allocation table (the latter two in
addition to the exceptions the spec lists); `symbolStrategies` is the
input map itself and the target weights are a pure function of
`(regime, config)`. -/
theorem allocator_lifecycle_frame (s s' : AllocState) (regime : String) (cfg : MsCfg)
    (symbolStrategies : SymMap) (caps : Option AMap) (runningIds : List ℤ)
    (heff : s.effectiveWeights = s'.effectiveWeights)
    (hfro : s.frozenStrategies = s'.frozenStrategies)
    (hcap : s.strategyInitialCapital = s'.strategyInitialCapital)
    (hall : s.strategyAllocation = s'.strategyAllocation) :
    updateRegime s regime cfg symbolStrategies caps runningIds =
      updateRegime s' regime cfg symbolStrategies caps runningIds ∧
    (updateRegime s regime cfg symbolStrategies caps runningIds).1.symbolStrategies =
      symbolStrategies ∧
    (updateRegime s regime cfg symbolStrategies caps runningIds).1.targetWeights =
      normalizeWeights (applyThreshold (getTargetWeights regime cfg)
        (cfg.minWeightThreshold.getD (1/20))) := by
  refine ⟨?_, rfl, rfl⟩
  simp only [updateRegime, heff, hfro, hcap, hall]

/-- A state agreeing with `initAllocState` on the carried fields but
differing in regime, target weights and capital pools. -/
def c10AltState : AllocState :=
  { initAllocState with
    currentRegime := "panic"
    targetWeights := [("zz", 1)]
    symbolCapitalPool := [("Y", 5)] }

/-- C10 witness: two states differing in regime, target weights and
capital pools — but agreeing on the four carried fields — yield
identical `update_regime` outcomes. -/
theorem allocator_lifecycle_frame_witness :
    updateRegime c10AltState "normal" msCfgC3 c10SymMap none [] =
      updateRegime initAllocState "normal" msCfgC3 c10SymMap none [] :=
  (allocator_lifecycle_frame c10AltState initAllocState "normal" msCfgC3 c10SymMap
    none [] rfl rfl rfl rfl).1

end QuantDinger
